import Mathlib

/-!
Verification of the glcs streaming pipeline against its specification.

Each section embeds one part of the C sources under src/ as executable Lean
definitions and proves the corresponding claims.  Where a definition comes
from repository code that is not under src/ (the glc.h data-model header,
the packetstream ring-buffer library, the external compression codecs), its
doc comment starts with the words Modelled from the spec and follows the
wording of spec.md.
-/

namespace Glcs

/-- Modelled from the spec: the message type set of section 3 of spec.md
(glc.h, which carries the numeric codes, is not under src/; only the .c
files that dispatch on these types are). -/
inductive MsgType where
  | close
  | videoFormat
  | videoFrame
  | audioFormat
  | audioData
  | lzo
  | quicklz
  | lzjb
  | color
  | container
  | callbackRequest
  deriving DecidableEq, Repr

/-- Modulus of the 64-bit unsigned integers (glc_utime_t, glc_size_t). -/
def u64 : Nat := 2 ^ 64

/-- Modulus of the 32-bit unsigned integers (unsigned int in the C sources). -/
def u32 : Nat := 2 ^ 32

/-- Modelled from the spec: an in-pipeline packet is a 2-byte type header
followed by payload bytes (section 3 of spec.md). -/
structure GlcMsg where
  type    : MsgType
  payload : List Nat
  deriving DecidableEq, Repr

/-! ## Pack / unpack stage (src/glc/core/pack.c) -/

/-- pack.c pack_init: the default minimum payload size for compression is
1024 bytes. -/
def compressMinDefault : Nat := 1024

/-- pack.c pack_read_callback: compress exactly when the payload size is
strictly greater than compress_min and the type is VIDEO_FRAME or
AUDIO_DATA. -/
def packShouldCompress (compressMin : Nat) (t : MsgType) (readSize : Nat) : Bool :=
  decide (readSize > compressMin) &&
    (decide (t = MsgType.videoFrame) || decide (t = MsgType.audioData))

/-- Modelled from the spec: the LZO, QuickLZ and LZJB codecs live in
external libraries that are not part of this repository; section 4.4 of
spec.md treats each as a packetwise codec given by a compress and a
decompress function on byte strings. -/
structure CompressionScheme where
  comp   : List Nat → List Nat
  decomp : List Nat → List Nat

/-- The wrapper the pack write callbacks place in front of the compressed
bytes: the uncompressed size and the original message header
(glc_lzo_header_t, glc_quicklz_header_t and glc_lzjb_header_t all have this
shape). -/
structure AlgoWrapped where
  size   : Nat
  header : MsgType
  data   : List Nat
  deriving DecidableEq, Repr

/-- Result of one pack worker iteration on one packet (pack_read_callback
deciding, pack_lzo_write_callback and friends rewriting, thread.c driving):
either the packet is copied to the output unchanged, or it becomes a
CONTAINER whose contained message has type algo and whose payload is the
wrapper followed by the compressed bytes. -/
inductive PackOut where
  | plain  (m : GlcMsg)
  | packed (algo : MsgType) (w : AlgoWrapped)
  deriving DecidableEq, Repr

/-- pack.c pack_read_callback plus the write callback selected by
pack_set_compression: the compress branch records the payload length in the
wrapper size field, saves the original header in the wrapper, compresses
the payload and retypes the outer message as CONTAINER; the other branch
sets the COPY flag, which makes thread.c copy header and payload
unchanged. -/
def packStage (algo : MsgType) (s : CompressionScheme) (compressMin : Nat)
    (m : GlcMsg) : PackOut :=
  if packShouldCompress compressMin m.type m.payload.length then
    PackOut.packed algo ⟨m.payload.length, m.type, s.comp m.payload⟩
  else
    PackOut.plain m

/-- thread.c fixes the output packet size from write_size, which
unpack_read_callback sets to the wrapper size field; the decompressor then
fills that slot.  takePad gives the content of an n-byte slot after the
given bytes have been written into it. -/
def takePad (n : Nat) (l : List Nat) : List Nat :=
  (l ++ List.replicate n 0).take n

/-- pack.c unpack_read_callback and unpack_write_callback for a message of
one of the three compressed types: the original header is restored from the
wrapper and the compressed bytes are decompressed into a slot of the size
the wrapper declares.  Messages of any other type are copied through by the
COPY flag, and unpack_write_callback rejects them with ENOTSUP, hence the
Option. -/
def unpackWrapped (s : CompressionScheme) (t : MsgType) (w : AlgoWrapped) :
    Option GlcMsg :=
  if t = MsgType.lzo ∨ t = MsgType.quicklz ∨ t = MsgType.lzjb then
    some ⟨w.header, takePad w.size (s.decomp w.data)⟩
  else
    none

/-- The composition the pipeline performs on a packed message: the file
sink writes the CONTAINER verbatim and the file source reads back the
contained message (type algo, payload wrapper plus compressed bytes), which
the unpack stage then restores. -/
def packThenUnpack (s : CompressionScheme) (algo : MsgType)
    (compressMin : Nat) (m : GlcMsg) : Option GlcMsg :=
  match packStage algo s compressMin m with
  | PackOut.plain m2 => some m2
  | PackOut.packed a w => unpackWrapped s a w

/-! ## File sink and source (src/glc/core/file.c) -/

/-- Modelled from the spec: the typed message payloads of section 3 of
spec.md that the file source inspects; VIDEO_FRAME and AUDIO_DATA payloads
start with a header carrying the stream id and the 64-bit time, everything
else is opaque bytes (glc.h with the struct layouts is not under src/). -/
inductive Payload where
  | videoFrame (id : Nat) (time : Nat) (pixels : List Nat)
  | audioData  (id : Nat) (time : Nat) (size : Nat) (pcm : List Nat)
  | raw        (bytes : List Nat)
  deriving DecidableEq, Repr

/-- One field of the on-disk byte stream at the granularity the file module
reads and writes it: a u64 size field, a 2-byte message header field, or a
payload. -/
inductive DiskField where
  | size    (n : Nat)
  | header  (t : MsgType)
  | payload (p : Payload)
  deriving DecidableEq, Repr

/-- glc.h GLC_STREAM_VERSION; section 4.5 of spec.md: the current stream
version is 0x05. -/
def streamVersionCurrent : Nat := 5

/-- The errno value ENOTSUP on Linux. -/
def ENOTSUP : Nat := 95

/-- file.c file_test_stream_version: the current version 0x05 and the
legacy versions 0x03 and 0x04 are accepted, everything else is rejected
with ENOTSUP. -/
def fileTestStreamVersion (version : Nat) : Nat :=
  if version = streamVersionCurrent then 0
  else if version = 3 ∨ version = 4 then 0
  else ENOTSUP

/-- file.c file_read, the version fix-up block: for stream versions below
0x05 the time field of a VIDEO_FRAME or AUDIO_DATA payload is multiplied by
1000 in 64-bit unsigned arithmetic; all other payloads, and every payload
of a version 0x05 stream, pass unchanged. -/
def normalizeTime (version : Nat) (t : MsgType) (p : Payload) : Payload :=
  if version < 5 then
    match t, p with
    | MsgType.videoFrame, Payload.videoFrame i tm px =>
        Payload.videoFrame i (tm * 1000 % u64) px
    | MsgType.audioData, Payload.audioData i tm n pcm =>
        Payload.audioData i (tm * 1000 % u64) n pcm
    | _, q => q
  else p

/-- file.c file_read, the header reading block: version 0x03 stores the
message header before the size field, every later version stores the size
field first. -/
def parseSizeHeader (version : Nat) (fs : List DiskField) :
    Option ((Nat × MsgType) × List DiskField) :=
  if version = 3 then
    match fs with
    | DiskField.header t :: DiskField.size n :: rest => some ((n, t), rest)
    | _ => none
  else
    match fs with
    | DiskField.size n :: DiskField.header t :: rest => some ((n, t), rest)
    | _ => none

/-- The message the send_eof path of file_read synthesizes on unexpected
end of file: a bare CLOSE header. -/
def closeEmit : MsgType × Payload := (MsgType.close, Payload.raw [])

/-- file.c file_read, the message loop: read size and header in the order
the stream version dictates, read the payload, normalize the time field,
publish the message, and stop after CLOSE; a truncated stream synthesizes a
final CLOSE.  The fuel argument bounds the number of iterations and is
instantiated with the length of the field list, which iterations consume
strictly. -/
def fileReadLoop (version : Nat) : Nat → List DiskField → List (MsgType × Payload)
  | 0, _ => [closeEmit]
  | fuel + 1, fs =>
    match parseSizeHeader version fs with
    | some ((_, t), DiskField.payload p :: rest2) =>
      if t = MsgType.close then [(t, normalizeTime version t p)]
      else (t, normalizeTime version t p) :: fileReadLoop version fuel rest2
    | _ => [closeEmit]

/-- file.c file_read on a whole on-disk field list. -/
def fileRead (version : Nat) (fs : List DiskField) : List (MsgType × Payload) :=
  fileReadLoop version fs.length fs

/-- One stored message as the writer laid it down: the recorded size field,
the 2-byte header and the payload. -/
structure FileRecord where
  size    : Nat
  type    : MsgType
  payload : Payload
  deriving DecidableEq, Repr

/-- The on-disk form of one record in the field order of the given stream
version: version 0x03 wrote the header before the size field, later
versions write the size field first (file.c file_write_message and the
0x03 compatibility note in file_test_stream_version). -/
def serializeRecord (version : Nat) (r : FileRecord) : List DiskField :=
  if version = 3 then
    [DiskField.header r.type, DiskField.size r.size, DiskField.payload r.payload]
  else
    [DiskField.size r.size, DiskField.header r.type, DiskField.payload r.payload]

/-- The on-disk form of a record sequence. -/
def serializeStream (version : Nat) (rs : List FileRecord) : List DiskField :=
  (rs.map (serializeRecord version)).flatten

/-- The record file_write_eof appends: a CLOSE message of size zero. -/
def closeRecord : FileRecord := ⟨0, MsgType.close, Payload.raw []⟩

/-- Whether a message type and a payload shape belong together (a
VIDEO_FRAME message carries a video frame payload, an AUDIO_DATA message an
audio data payload); in C this is forced by the byte layout. -/
def wfShape : MsgType → Payload → Bool
  | MsgType.videoFrame, Payload.videoFrame _ _ _ => true
  | MsgType.videoFrame, _ => false
  | MsgType.audioData, Payload.audioData _ _ _ _ => true
  | MsgType.audioData, _ => false
  | _, _ => true

/-- The time scaling of the claim, spelled on payload shapes: multiply the
time field by 1000 in 64-bit arithmetic. -/
def scaleTime1000 : Payload → Payload
  | Payload.videoFrame i tm px => Payload.videoFrame i (tm * 1000 % u64) px
  | Payload.audioData i tm n pcm => Payload.audioData i (tm * 1000 % u64) n pcm
  | Payload.raw b => Payload.raw b

/-- The normalization step as the claim words it: versions 0x03 and 0x04
scale VIDEO_FRAME and AUDIO_DATA times by 1000, version 0x05 is left
unchanged. -/
def specNormalize (version : Nat) (t : MsgType) (p : Payload) : Payload :=
  if (version = 3 ∨ version = 4) ∧
      (t = MsgType.videoFrame ∨ t = MsgType.audioData) then
    scaleTime1000 p
  else p

/-- The input alphabet of the file sink read callback, at the granularity
file_read_callback dispatches on: a CALLBACK_REQUEST carrying its argument,
a CONTAINER whose payload starts with the contained size and header, or any
other message. -/
inductive SinkIn where
  | callbackReq (arg : Nat)
  | containerIn (innerSize : Nat) (innerType : MsgType) (innerPayload : Payload)
  | other (t : MsgType) (readSize : Nat) (p : Payload)
  deriving DecidableEq, Repr

/-- An observable effect of the file sink write thread: fields appended to
the file, or an invocation of the registered user callback. -/
inductive SinkEffect where
  | wrote    (fs : List DiskField)
  | invoked  (arg : Nat)
  deriving DecidableEq, Repr

/-- file.c file_read_callback on one dequeued message: a CALLBACK_REQUEST
is never written and instead invokes the registered callback with its
argument (when one is registered); a CONTAINER is written verbatim, the
contained size and header first and the contained bytes after them; every
other message is wrapped on disk as size field, header, payload. -/
def fileReadCallback (hasCallback : Bool) : SinkIn → List SinkEffect
  | SinkIn.callbackReq arg =>
    if hasCallback then [SinkEffect.invoked arg] else []
  | SinkIn.containerIn n t p =>
    [SinkEffect.wrote [DiskField.size n, DiskField.header t, DiskField.payload p]]
  | SinkIn.other t n p =>
    [SinkEffect.wrote [DiskField.size n, DiskField.header t, DiskField.payload p]]

/-- The file sink write thread over a message sequence: the concatenation
of the per-message effects (thread.c drives file_read_callback once per
dequeued packet). -/
def fileSinkRun (hasCallback : Bool) (ms : List SinkIn) : List SinkEffect :=
  (ms.map (fileReadCallback hasCallback)).flatten

/-! ## ALSA capture (src/glc/capture/alsa_capture.c) -/

/-- alsa_capture.c alsa_capture_open: rate_nsec is the nanosecond length of
one sample, computed by unsigned integer division. -/
def rateNsec (rate : Nat) : Nat := 1000000000 / rate

/-- alsa_capture.c alsa_capture_open: delay_nsec is the nanosecond length
of one transfer period. -/
def delayNsec (periodSize rate : Nat) : Nat := periodSize * rateNsec rate

/-- alsa_capture.c alsa_capture_process_pcm: the packet time is the virtual
clock value, reduced by delay_nsec only when that does not underflow the
unsigned field. -/
def audioDataTime (clock delay : Nat) : Nat :=
  if delay ≤ clock then clock - delay else clock

/-- Outcome of one snd_pcm_readi call as the capture loop distinguishes
them: a chunk of frames, an ignored EINTR, or a fatal error. -/
inductive PcmRead where
  | frames (chunk : List Nat)
  | eintr
  | fatal (e : Nat)
  deriving DecidableEq, Repr

/-- alsa_capture.c alsa_capture_read_pcm: repeated snd_pcm_readi calls
accumulate frames until a full period has been read, EINTR results are
ignored, any other failure aborts; none models an aborted or never
completing read, in which case the packet is cancelled and nothing is
published. -/
def readAccum (count : Nat) (acc : List Nat) : List PcmRead → Option (List Nat)
  | [] => if count = 0 then some acc else none
  | PcmRead.frames c :: rest =>
    if count = 0 then some acc
    else readAccum (count - c.length) (acc ++ c) rest
  | PcmRead.eintr :: rest =>
    if count = 0 then some acc else readAccum count acc rest
  | PcmRead.fatal _ :: _ => if count = 0 then some acc else none

/-- The negotiated capture parameters alsa_capture_open leaves in the
handle. -/
structure AlsaParams where
  id       : Nat
  period   : Nat
  rate     : Nat
  channels : Nat
  fmt      : Nat
  deriving DecidableEq, Repr

/-- An emitted AUDIO_DATA packet: stream id, time and one period of
frames. -/
structure AudioPacket where
  id   : Nat
  time : Nat
  data : List Nat
  deriving DecidableEq, Repr

/-- alsa_capture.c alsa_capture_process_pcm on a POLLIN event: stamp the
packet with the guarded clock value, read one period of frames, and publish
the packet only when the read completed a full period (any shorter result
cancels the packet). -/
def processPcm (cap : AlsaParams) (clock : Nat) (reads : List PcmRead) :
    Option AudioPacket :=
  let time := audioDataTime clock (delayNsec cap.period cap.rate)
  match readAccum cap.period [] reads with
  | some data => if data.length = cap.period then some ⟨cap.id, time, data⟩ else none
  | none => none

/-- The frame chunks of a read sequence, in order, with EINTR and error
results dropped. -/
def framesOf : List PcmRead → List (List Nat)
  | [] => []
  | PcmRead.frames c :: rest => c :: framesOf rest
  | _ :: rest => framesOf rest

/-- GLC_AUDIO_INTERLEAVED; alsa_capture.c alsa_capture_open always sets
exactly this flag word. -/
def audioInterleavedFlag : Nat := 1

/-- A packet the capture source publishes on its target buffer. -/
inductive CapPacket where
  | audioFormat (id rate channels flags fmt : Nat)
  | audioData (id : Nat) (time : Nat) (data : List Nat)
  deriving DecidableEq, Repr

/-- alsa_capture.c alsa_capture_open: after successful negotiation the
source publishes one AUDIO_FORMAT packet carrying the stream id and the
negotiated rate, channels, flags and sample format. -/
def alsaOpenPacket (cap : AlsaParams) : CapPacket :=
  CapPacket.audioFormat cap.id cap.rate cap.channels audioInterleavedFlag cap.fmt

/-- alsa_capture.c alsa_capture_thread for a successfully negotiated
device: the open emission followed by the poll loop, one POLLIN iteration
given by its clock reading and its snd_pcm_readi outcomes; iterations whose
read does not complete publish nothing. -/
def alsaCaptureTrace (cap : AlsaParams) (iters : List (Nat × List PcmRead)) :
    List CapPacket :=
  alsaOpenPacket cap ::
    iters.filterMap (fun it =>
      (processPcm cap it.1 it.2).map (fun pkt =>
        CapPacket.audioData pkt.id pkt.time pkt.data))

/-! ## Pipe sink (src/glc/core/pipe.c) -/

/-- pipe.c pipe_sink_init: the configured delay in milliseconds is
converted to nanoseconds in 32-bit unsigned arithmetic (the delay_ns field
is an unsigned int). -/
def pipeDelayNs (delayMs : Nat) : Nat := delayMs * 1000000 % u32

/-- A VIDEO_FRAME as the pipe sink sees it: stream id, 64-bit time, pixel
bytes. -/
structure Frame where
  id   : Nat
  time : Nat
  data : List Nat
  deriving DecidableEq, Repr

/-- The pipe runtime fields pipe_read_callback consults: whether the pipe
has been opened, the stream id recorded at open, and the earliest timestamp
a frame may be written at. -/
structure PipeRuntime where
  pipeOpen     : Bool
  id           : Nat
  firstFrameTs : Nat
  deriving DecidableEq, Repr

/-- pipe.c before the first frame: w_pipefd is -1 and the other runtime
fields are zeroed by calloc. -/
def pipeInitRuntime : PipeRuntime := ⟨false, 0, 0⟩

/-- pipe.c pipe_read_callback on a VIDEO_FRAME, with open_pipe inlined: the
first frame opens the pipe, records its stream id and sets first_frame_ts
to its time plus the configured delay in 64-bit arithmetic; afterwards a
frame of another id is dropped with success, and a frame older than
first_frame_ts is dropped as well; the rest are written to the child. -/
def pipeFrameStep (delayNs : Nat) (rt : PipeRuntime) (f : Frame) :
    PipeRuntime × Option Frame :=
  if rt.pipeOpen = false then
    let rt2 : PipeRuntime := ⟨true, f.id, (f.time + delayNs) % u64⟩
    (rt2, if rt2.firstFrameTs ≤ f.time then some f else none)
  else if f.id ≠ rt.id then (rt, none)
  else (rt, if rt.firstFrameTs ≤ f.time then some f else none)

/-- The pipe sink over a frame sequence: fold of pipeFrameStep, collecting
the frames actually written to the child process. -/
def pipeRun (delayNs : Nat) (rt : PipeRuntime) : List Frame → PipeRuntime × List Frame
  | [] => (rt, [])
  | f :: fs =>
    let step := pipeFrameStep delayNs rt f
    let rest := pipeRun delayNs step.1 fs
    (rest.1, (step.2.toList) ++ rest.2)

/-! ## Demultiplexer (src/glc/play/demux.c) -/

/-- One sub-stream node of a per-kind linked list in demux.c, together with
the observables of its lifecycle: quit records that its consumer thread has
exited and cancelled the buffer (so sends return the interrupted code),
joined and destroyed record what demux_video_stream_clean did, delivered is
what its consumer received, and ubSends counts sends attempted after the
buffer was destroyed. -/
structure DStream where
  id        : Nat
  running   : Bool
  quit      : Bool
  destroyed : Bool
  joined    : Bool
  delivered : List (MsgType × Nat)
  ubSends   : Nat
  deriving DecidableEq, Repr

/-- demux.c demux_video_stream_get creation branch: a fresh sub-stream with
a started consumer. -/
def newStream (id : Nat) : DStream :=
  ⟨id, true, false, false, false, [], 0⟩

/-- demux.c demux_video_stream_send (and its audio twin): a send to a
destroyed buffer touches freed state; a send whose buffer was cancelled by
the departed consumer returns the interrupted code, upon which the stream
is cleaned in place (consumer joined, buffer destroyed, running cleared)
and left in the list; otherwise the message is delivered. -/
def streamSend (v : DStream) (m : MsgType × Nat) : DStream :=
  if v.destroyed then { v with ubSends := v.ubSends + 1 }
  else if v.quit then { v with running := false, joined := true, destroyed := true }
  else { v with delivered := v.delivered ++ [m] }

/-- demux.c demux_video_stream_message (and its audio twin): CLOSE is
broadcast to every running sub-stream; any other routed message goes to the
sub-stream of its id, which is created at the head of the list on first
sight. -/
def demuxStreamMessage (streams : List DStream) (m : MsgType × Nat)
    (isClose : Bool) (id : Nat) : List DStream :=
  if isClose then
    streams.map (fun v => if v.running then streamSend v m else v)
  else if streams.any (fun v => v.id = id) then
    streams.map (fun v => if v.id = id then streamSend v m else v)
  else
    streamSend (newStream id) m :: streams

/-- The demultiplexer state: the two per-kind lists of sub-streams. -/
structure DemuxState where
  video : List DStream
  audio : List DStream
  deriving DecidableEq, Repr

/-- demux.c demux_thread body for one dequeued message: CLOSE, VIDEO_FRAME
and VIDEO_FORMAT go to the video handler, CLOSE, AUDIO_FORMAT and
AUDIO_DATA go to the audio handler, and a message of any other type reaches
neither handler. -/
def demuxHandleMsg (s : DemuxState) (t : MsgType) (id : Nat) : DemuxState :=
  let s1 :=
    if t = MsgType.close ∨ t = MsgType.videoFrame ∨ t = MsgType.videoFormat then
      { s with video := demuxStreamMessage s.video (t, id) (t = MsgType.close) id }
    else s
  if t = MsgType.close ∨ t = MsgType.audioFormat ∨ t = MsgType.audioData then
    { s1 with audio := demuxStreamMessage s1.audio (t, id) (t = MsgType.close) id }
  else s1

/-- An input to a demultiplexer run: a message read from the merged stream,
or the event that the consumer of a sub-stream exits and cancels its
buffer. -/
inductive DemuxEvent where
  | msg (t : MsgType) (id : Nat)
  | vquit (id : Nat)
  | aquit (id : Nat)
  deriving DecidableEq, Repr

/-- Mark the consumer of the given sub-stream as exited. -/
def setQuit (streams : List DStream) (id : Nat) : List DStream :=
  streams.map (fun v => if v.id = id then { v with quit := true } else v)

/-- demux.c demux_thread loop: process events until a CLOSE message has
been handled (the do-while condition of the loop). -/
def demuxRun : List DemuxEvent → DemuxState → DemuxState
  | [], s => s
  | DemuxEvent.vquit id :: rest, s =>
    demuxRun rest { s with video := setQuit s.video id }
  | DemuxEvent.aquit id :: rest, s =>
    demuxRun rest { s with audio := setQuit s.audio id }
  | DemuxEvent.msg t id :: rest, s =>
    let s2 := demuxHandleMsg s t id
    if t = MsgType.close then s2 else demuxRun rest s2

/-- The demultiplexer starts with both per-kind lists empty. -/
def demuxInit : DemuxState := ⟨[], []⟩

/-! ## Worker group (src/glc/common/thread.c) -/

/-- State of a worker group together with its two buffers.  Modelled from
the spec where the packetstream library is concerned (it is not under
src/): per section 4.1 of spec.md the input buffer hands packets to readers
in FIFO order and the output buffer delivers packets to its reader in
slot-reservation order once each slot has been closed.  input holds the
packets not yet dequeued, slots the reserved output slots in reservation
order (none while not yet closed), and pending the workers inside their
compute phase, each with its slot index and its claimed packet. -/
structure WGState (α β : Type) where
  input   : List α
  slots   : List (Option β)
  pending : List (Nat × α)

/-- thread.c glc_thread loop for a filter with both read and write
enabled, as a small-step relation over worker interleavings.  A claim step
is the open-lock critical section (lines 181 to 221): the worker atomically
dequeues the oldest input packet and reserves the next output slot; at most
N workers can be inside their iteration.  A publish step is the rest of the
iteration: the worker fills its reserved slot with the filter result f of
its packet and closes it, in any order relative to other workers. -/
inductive WGStep {α β : Type} [DecidableEq α] (f : α → β) (N : Nat) :
    WGState α β → WGState α β → Prop where
  | claim (p : α) (rest : List α) (s : WGState α β)
      (hin : s.input = p :: rest) (hN : s.pending.length < N) :
      WGStep f N s ⟨rest, s.slots ++ [none], s.pending ++ [(s.slots.length, p)]⟩
  | publish (i : Nat) (p : α) (s : WGState α β)
      (hmem : (i, p) ∈ s.pending) :
      WGStep f N s ⟨s.input, s.slots.set i (some (f p)), s.pending.erase (i, p)⟩

/-- Executions of the worker group: reflexive transitive closure of the
worker steps. -/
def WGReaches {α β : Type} [DecidableEq α] (f : α → β) (N : Nat) :
    WGState α β → WGState α β → Prop :=
  Relation.ReflTransGen (WGStep f N)

/-- The worker group invariant: the slot count equals the number of
dequeued packets, every reserved slot either already holds the filter
result of the packet dequeued at the same position or is still pending with
exactly that packet, every pending entry is consistent, and no two pending
entries share a slot. -/
structure WGInv {α β : Type} (f : α → β) (xs : List α) (s : WGState α β) : Prop where
  hinput : s.input = xs.drop s.slots.length
  hlen   : s.slots.length ≤ xs.length
  hslot  : ∀ j, j < s.slots.length →
    s.slots[j]? = some ((xs[j]?).map f) ∨
      (s.slots[j]? = some none ∧ ∃ p, xs[j]? = some p ∧ (j, p) ∈ s.pending)
  hpend  : ∀ i p, (i, p) ∈ s.pending →
    i < s.slots.length ∧ xs[i]? = some p ∧ s.slots[i]? = some none
  hnd    : (s.pending.map Prod.fst).Nodup

/-! ## Theorems -/

/-- Filling an n-byte slot with exactly n bytes reproduces those bytes. -/
theorem takePad_of_length_eq {l : List Nat} {n : Nat} (h : l.length = n) :
    takePad n l = l := by
  subst h
  unfold takePad
  exact List.take_left l _

/-- C3: the pack worker wraps a packet into a CONTAINER with the selected
inner compression type exactly when its type is VIDEO_FRAME or AUDIO_DATA
and its payload is strictly larger than the configured minimum, whose
default is 1024 bytes; every other packet is copied through with header and
payload unchanged. -/
theorem pack_compress_decision (algo : MsgType) (s : CompressionScheme) (m : GlcMsg) :
    packStage algo s compressMinDefault m =
      (if (m.type = MsgType.videoFrame ∨ m.type = MsgType.audioData) ∧
          m.payload.length > 1024 then
        PackOut.packed algo ⟨m.payload.length, m.type, s.comp m.payload⟩
      else PackOut.plain m) := by
  unfold packStage packShouldCompress compressMinDefault
  by_cases h1 : m.payload.length > 1024 <;>
    by_cases h2 : m.type = MsgType.videoFrame <;>
      by_cases h3 : m.type = MsgType.audioData <;>
        simp [h1, h2, h3]

/-- C2: for a lossless codec, unpacking the pack output of any packet the
pack stage compresses restores the original message exactly: the pack
output is a CONTAINER recording the payload length as the wrapper
uncompressed size, and feeding the contained message through the unpack
stage yields back the original header and payload. -/
theorem pack_unpack_roundtrip (s : CompressionScheme)
    (hs : ∀ x, s.decomp (s.comp x) = x)
    (algo : MsgType) (halgo : algo = MsgType.lzo ∨ algo = MsgType.quicklz ∨
      algo = MsgType.lzjb)
    (cmin : Nat) (m : GlcMsg)
    (hc : packShouldCompress cmin m.type m.payload.length = true) :
    packStage algo s cmin m =
      PackOut.packed algo ⟨m.payload.length, m.type, s.comp m.payload⟩ ∧
    packThenUnpack s algo cmin m = some m := by
  have hpack : packStage algo s cmin m =
      PackOut.packed algo ⟨m.payload.length, m.type, s.comp m.payload⟩ := by
    unfold packStage
    rw [hc]
    simp
  refine ⟨hpack, ?_⟩
  unfold packThenUnpack
  rw [hpack]
  show unpackWrapped s algo ⟨m.payload.length, m.type, s.comp m.payload⟩ = some m
  unfold unpackWrapped
  rw [if_pos halgo]
  rw [hs]
  rw [takePad_of_length_eq rfl]

/-- Witness for C2 at a concrete input: the identity codec, the LZO inner
type, minimum two bytes, a three-byte VIDEO_FRAME. -/
theorem pack_unpack_roundtrip_witness :
    packStage MsgType.lzo ⟨fun x => x, fun x => x⟩ 2 ⟨MsgType.videoFrame, [5, 6, 7]⟩ =
      PackOut.packed MsgType.lzo ⟨3, MsgType.videoFrame, [5, 6, 7]⟩ ∧
    packThenUnpack ⟨fun x => x, fun x => x⟩ MsgType.lzo 2 ⟨MsgType.videoFrame, [5, 6, 7]⟩ =
      some ⟨MsgType.videoFrame, [5, 6, 7]⟩ :=
  pack_unpack_roundtrip ⟨fun x => x, fun x => x⟩ (fun _ => rfl) MsgType.lzo
    (Or.inl rfl) 2 ⟨MsgType.videoFrame, [5, 6, 7]⟩ (by decide)

/-- C5: the file sink write thread persists a CONTAINER verbatim (the
contained size and header followed by the contained bytes), wraps every
other persistable message on disk as a size field, the 2-byte header and
the payload, and never writes a CALLBACK_REQUEST to the file, invoking the
registered user callback with its argument instead; over a whole dequeued
sequence the file receives exactly the per-message forms in order. -/
theorem file_sink_message_forms :
    (∀ arg, fileReadCallback true (SinkIn.callbackReq arg) = [SinkEffect.invoked arg]) ∧
    (∀ hb arg fs, SinkEffect.wrote fs ∉ fileReadCallback hb (SinkIn.callbackReq arg)) ∧
    (∀ hb n t p, fileReadCallback hb (SinkIn.containerIn n t p) =
      [SinkEffect.wrote [DiskField.size n, DiskField.header t, DiskField.payload p]]) ∧
    (∀ hb t n p, fileReadCallback hb (SinkIn.other t n p) =
      [SinkEffect.wrote [DiskField.size n, DiskField.header t, DiskField.payload p]]) ∧
    (∀ hb m ms, fileSinkRun hb (m :: ms) =
      fileReadCallback hb m ++ fileSinkRun hb ms) := by
  refine ⟨fun arg => rfl, ?_, fun hb n t p => rfl, fun hb t n p => rfl, ?_⟩
  · intro hb arg fs hmem
    cases hb <;> simp [fileReadCallback] at hmem
  · intro hb m ms
    simp [fileSinkRun]

/-- C10: a message whose type is none of CLOSE, VIDEO_FORMAT, VIDEO_FRAME,
AUDIO_FORMAT and AUDIO_DATA reaches neither per-kind handler of the
demultiplexer: the state is unchanged, no sub-stream receives it, and the
demux loop goes on with the following events. -/
theorem demux_other_types_discarded (t : MsgType) (id : Nat)
    (ht : t ≠ MsgType.close ∧ t ≠ MsgType.videoFormat ∧ t ≠ MsgType.videoFrame ∧
      t ≠ MsgType.audioFormat ∧ t ≠ MsgType.audioData)
    (s : DemuxState) (rest : List DemuxEvent) :
    demuxHandleMsg s t id = s ∧
    demuxRun (DemuxEvent.msg t id :: rest) s = demuxRun rest s := by
  obtain ⟨h1, h2, h3, h4, h5⟩ := ht
  have hh : demuxHandleMsg s t id = s := by
    unfold demuxHandleMsg
    simp [h1, h2, h3, h4, h5]
  refine ⟨hh, ?_⟩
  show (let s2 := demuxHandleMsg s t id;
        if t = MsgType.close then s2 else demuxRun rest s2) = demuxRun rest s
  simp [hh, h1]

/-- Witness for C10 at a concrete input: a COLOR message is discarded and
the loop continues. -/
theorem demux_other_types_discarded_witness :
    demuxHandleMsg demuxInit MsgType.color 3 = demuxInit ∧
    demuxRun (DemuxEvent.msg MsgType.color 3 ::
      [DemuxEvent.msg MsgType.close 0]) demuxInit =
      demuxRun [DemuxEvent.msg MsgType.close 0] demuxInit :=
  demux_other_types_discarded MsgType.color 3 (by decide) demuxInit
    [DemuxEvent.msg MsgType.close 0]

/-- The accumulated frames of a completed read are an in-order prefix of
the frames the PCM delivered. -/
theorem readAccum_frames_prefix (reads : List PcmRead) :
    ∀ count acc d, readAccum count acc reads = some d →
      ∃ suffix, d ++ suffix = acc ++ (framesOf reads).flatten := by
  induction reads with
  | nil =>
    intro count acc d h
    unfold readAccum at h
    by_cases hc : count = 0 <;> simp [hc] at h
    exact ⟨[], by simp [h, framesOf]⟩
  | cons r rest ih =>
    intro count acc d h
    cases r with
    | frames c =>
      unfold readAccum at h
      by_cases hc : count = 0
      · simp [hc] at h
        exact ⟨c ++ (framesOf rest).flatten, by simp [h, framesOf]⟩
      · simp [hc] at h
        obtain ⟨suffix, hsuf⟩ := ih _ _ _ h
        refine ⟨suffix, ?_⟩
        simp [framesOf]
        simpa using hsuf
    | eintr =>
      unfold readAccum at h
      by_cases hc : count = 0
      · simp [hc] at h
        exact ⟨(framesOf rest).flatten, by simp [h, framesOf]⟩
      · simp [hc] at h
        obtain ⟨suffix, hsuf⟩ := ih _ _ _ h
        exact ⟨suffix, by simpa [framesOf] using hsuf⟩
    | fatal e =>
      unfold readAccum at h
      by_cases hc : count = 0 <;> simp [hc] at h
      exact ⟨(framesOf rest).flatten, by simp [h, framesOf]⟩

/-- C6 counterexample: at virtual clock value 0 with a 2-frame period at
44100 Hz the published AUDIO_DATA packet carries time 0, not the clock
value minus the period length (neither as integers nor in wrapping 64-bit
arithmetic), because alsa_capture_process_pcm subtracts the period length
only when that does not underflow. -/
theorem alsa_time_claim_counterexample :
    processPcm ⟨1, 2, 44100, 2, 1⟩ 0 [PcmRead.frames [5, 6]] =
      some ⟨1, 0, [5, 6]⟩ ∧
    delayNsec 2 44100 = 45350 ∧
    ¬ ((0 : ℤ) = (0 : ℤ) - (delayNsec 2 44100 : ℤ)) ∧
    ¬ ((0 : Nat) = (0 + u64 - delayNsec 2 44100) % u64) := by
  refine ⟨by decide, by decide, by decide, by decide⟩

/-- C6 as amended: the emitted AUDIO_DATA packet carries the capture
stream id; its time is the virtual clock value minus
period_size times (10 to the 9th divided by rate) nanoseconds when the
clock has reached that length, and the bare clock value otherwise; and its
payload is exactly one period of frames accumulated from the successive
snd_pcm_readi chunks with EINTR results ignored. -/
theorem alsa_audio_packet_time_and_payload (cap : AlsaParams) (clock : Nat)
    (reads : List PcmRead) (pkt : AudioPacket)
    (h : processPcm cap clock reads = some pkt) :
    pkt.id = cap.id ∧
    pkt.time = (if delayNsec cap.period cap.rate ≤ clock then
      clock - delayNsec cap.period cap.rate else clock) ∧
    pkt.data.length = cap.period ∧
    ∃ suffix, pkt.data ++ suffix = (framesOf reads).flatten := by
  unfold processPcm at h
  rcases hacc : readAccum cap.period [] reads with _ | d
  · rw [hacc] at h
    simp at h
  · rw [hacc] at h
    simp only [Option.some.injEq] at h
    by_cases hlen : d.length = cap.period
    · rw [if_pos hlen] at h
      obtain ⟨suffix, hsuf⟩ := readAccum_frames_prefix reads _ _ _ hacc
      simp only [List.nil_append] at hsuf
      cases h.symm
      exact ⟨rfl, rfl, hlen, suffix, hsuf⟩
    · rw [if_neg hlen] at h
      cases h

/-- Witness for the amended C6 at a concrete input: one second of clock,
a 2-frame period at 44100 Hz, two chunks with an EINTR between them. -/
theorem alsa_audio_packet_time_witness :
    (AudioPacket.mk 1 999954650 [5, 6]).id = 1 ∧
    (AudioPacket.mk 1 999954650 [5, 6]).time =
      (if delayNsec 2 44100 ≤ 1000000000 then 1000000000 - delayNsec 2 44100
       else 1000000000) ∧
    (AudioPacket.mk 1 999954650 [5, 6]).data.length = 2 ∧
    ∃ suffix, (AudioPacket.mk 1 999954650 [5, 6]).data ++ suffix =
      (framesOf [PcmRead.frames [5], PcmRead.eintr, PcmRead.frames [6]]).flatten :=
  alsa_audio_packet_time_and_payload ⟨1, 2, 44100, 2, 1⟩ 1000000000
    [PcmRead.frames [5], PcmRead.eintr, PcmRead.frames [6]]
    ⟨1, 999954650, [5, 6]⟩ (by decide)

/-- The stream id of every packet alsa_capture_process_pcm publishes is the
capture stream id. -/
theorem processPcm_id (cap : AlsaParams) (clock : Nat) (reads : List PcmRead)
    (pkt : AudioPacket) (h : processPcm cap clock reads = some pkt) :
    pkt.id = cap.id := by
  unfold processPcm at h
  rcases hacc : readAccum cap.period [] reads with _ | d <;> rw [hacc] at h <;>
    dsimp only at h
  · cases h
  · by_cases hlen : d.length = cap.period
    · rw [if_pos hlen] at h
      cases Option.some.inj h
      rfl
    · rw [if_neg hlen] at h
      cases h

/-- C9: the first packet a successfully negotiated ALSA capture source
publishes is exactly one AUDIO_FORMAT message carrying the stream id and
the negotiated rate, channels, flag word and sample format, and every later
packet of the trace is an AUDIO_DATA message for that same stream id. -/
theorem alsa_first_packet_format_then_data (cap : AlsaParams)
    (iters : List (Nat × List PcmRead)) :
    (alsaCaptureTrace cap iters).head? =
      some (CapPacket.audioFormat cap.id cap.rate cap.channels
        audioInterleavedFlag cap.fmt) ∧
    ∀ pkt ∈ (alsaCaptureTrace cap iters).tail,
      ∃ tm d, pkt = CapPacket.audioData cap.id tm d := by
  refine ⟨rfl, ?_⟩
  intro pkt hmem
  unfold alsaCaptureTrace at hmem
  simp only [List.tail_cons] at hmem
  obtain ⟨it, hit, hmap⟩ := List.mem_filterMap.mp hmem
  rcases hp : processPcm cap it.1 it.2 with _ | apkt <;> rw [hp] at hmap
  · cases hmap
  · have hid := processPcm_id cap it.1 it.2 apkt hp
    have heq : CapPacket.audioData apkt.id apkt.time apkt.data = pkt := by
      simpa using hmap
    exact ⟨apkt.time, apkt.data, by rw [← heq, hid]⟩

/-- Witness for C9 at a concrete input: an 8-frame-per-second negotiation
with one POLLIN iteration. -/
theorem alsa_first_packet_format_witness :
    (alsaCaptureTrace ⟨3, 1, 1000000000, 2, 1⟩ [(5, [PcmRead.frames [42]])]).head? =
      some (CapPacket.audioFormat 3 1000000000 2 audioInterleavedFlag 1) ∧
    ∃ tm d, CapPacket.audioData 3 4 [42] = CapPacket.audioData 3 tm d :=
  ⟨(alsa_first_packet_format_then_data ⟨3, 1, 1000000000, 2, 1⟩
      [(5, [PcmRead.frames [42]])]).1,
   (alsa_first_packet_format_then_data ⟨3, 1, 1000000000, 2, 1⟩
      [(5, [PcmRead.frames [42]])]).2
     (CapPacket.audioData 3 4 [42]) (by decide)⟩

/-- Once the pipe is open the runtime fields are never changed again, and
a written frame always carries the recorded stream id and a time at or
after first_frame_ts. -/
theorem pipeFrameStep_open (delay : Nat) (rt : PipeRuntime)
    (hopen : rt.pipeOpen = true) (f : Frame) :
    (pipeFrameStep delay rt f).1 = rt ∧
    ∀ w, (pipeFrameStep delay rt f).2 = some w →
      w.id = rt.id ∧ rt.firstFrameTs ≤ w.time := by
  unfold pipeFrameStep
  rw [if_neg (by rw [hopen]; simp)]
  by_cases hid : f.id ≠ rt.id
  · rw [if_pos hid]
    exact ⟨rfl, fun w hw => by cases hw⟩
  · rw [if_neg hid]
    push_neg at hid
    refine ⟨rfl, ?_⟩
    intro w hw
    by_cases hts : rt.firstFrameTs ≤ f.time
    · rw [if_pos hts] at hw
      cases Option.some.inj hw
      exact ⟨hid, hts⟩
    · rw [if_neg hts] at hw
      cases hw

/-- Every frame a run from an open runtime writes carries the recorded
stream id and a time at or after first_frame_ts. -/
theorem pipeRun_open (delay : Nat) (rt : PipeRuntime)
    (hopen : rt.pipeOpen = true) (fs : List Frame) :
    ∀ w ∈ (pipeRun delay rt fs).2, w.id = rt.id ∧ rt.firstFrameTs ≤ w.time := by
  induction fs with
  | nil =>
    intro w hw
    simp [pipeRun] at hw
  | cons f fs ih =>
    intro w hw
    have hstep := pipeFrameStep_open delay rt hopen f
    unfold pipeRun at hw
    dsimp only at hw
    rw [hstep.1] at hw
    rcases List.mem_append.mp hw with h1 | h2
    · refine hstep.2 w ?_
      cases hval : (pipeFrameStep delay rt f).2 with
      | none => rw [hval] at h1; cases h1
      | some v =>
        rw [hval] at h1
        simp at h1
        rw [h1]
    · exact ih w h2

/-- C7: the pipe sink writes to the child only frames whose id is the id
of the first VIDEO_FRAME it encountered, and only frames whose time has
reached first_frame_ts, the first frame's timestamp plus the configured
delay in 64-bit arithmetic; frames of other streams and frames before the
delay are dropped without error. -/
theorem pipe_first_stream_and_delay (delayNs : Nat) (f0 : Frame) (rest : List Frame) :
    ∀ w ∈ (pipeRun delayNs pipeInitRuntime (f0 :: rest)).2,
      w.id = f0.id ∧ (f0.time + delayNs) % u64 ≤ w.time := by
  intro w hw
  have hstep : pipeFrameStep delayNs pipeInitRuntime f0 =
      (⟨true, f0.id, (f0.time + delayNs) % u64⟩,
       if (f0.time + delayNs) % u64 ≤ f0.time then some f0 else none) := by
    unfold pipeFrameStep pipeInitRuntime
    rw [if_pos rfl]
  unfold pipeRun at hw
  dsimp only at hw
  rw [hstep] at hw
  rcases List.mem_append.mp hw with h1 | h2
  · by_cases hts : (f0.time + delayNs) % u64 ≤ f0.time
    · rw [if_pos hts] at h1
      simp at h1
      rw [h1]
      exact ⟨rfl, hts⟩
    · rw [if_neg hts] at h1
      cases h1
  · have := pipeRun_open delayNs ⟨true, f0.id, (f0.time + delayNs) % u64⟩ rfl rest w h2
    simpa using this

/-- Witness for C7 at a concrete input: delay 5 ns, a first frame of
stream 1 at time 100; a frame of stream 2 and an early first frame are
dropped, a later stream-1 frame is written and obeys both bounds. -/
theorem pipe_first_stream_and_delay_witness :
    (Frame.mk 1 1000 []).id = (Frame.mk 1 100 []).id ∧
    ((Frame.mk 1 100 []).time + 5) % u64 ≤ (Frame.mk 1 1000 []).time :=
  pipe_first_stream_and_delay 5 ⟨1, 100, []⟩ [⟨2, 1000, []⟩, ⟨1, 1000, []⟩]
    ⟨1, 1000, []⟩ (by decide)

/-- Parsing the serialized form of one record recovers its size and header
and leaves the payload field in front, for either field order. -/
theorem parseSizeHeader_serialize (v : Nat) (r : FileRecord) (rest : List DiskField) :
    parseSizeHeader v (serializeRecord v r ++ rest) =
      some ((r.size, r.type), DiskField.payload r.payload :: rest) := by
  unfold parseSizeHeader serializeRecord
  by_cases hv : v = 3 <;> simp [hv]

/-- CLOSE payloads are never rescaled. -/
theorem normalizeTime_close (v : Nat) (p : Payload) :
    normalizeTime v MsgType.close p = p := by
  unfold normalizeTime
  by_cases hv : v < 5
  · rw [if_pos hv]
  · rw [if_neg hv]

/-- One loop iteration of file_read over the serialized form of a
non-CLOSE record emits that record, normalized, and goes on. -/
theorem fileReadLoop_cons (v fuel : Nat) (r : FileRecord) (rest : List DiskField)
    (hne : r.type ≠ MsgType.close) :
    fileReadLoop v (fuel + 1) (serializeRecord v r ++ rest) =
      (r.type, normalizeTime v r.type r.payload) :: fileReadLoop v fuel rest := by
  simp only [fileReadLoop]
  rw [parseSizeHeader_serialize]
  simp [hne]

/-- One loop iteration of file_read over a serialized CLOSE record emits
the CLOSE and stops. -/
theorem fileReadLoop_closeRecord (v fuel : Nat) (rest : List DiskField) :
    fileReadLoop v (fuel + 1) (serializeRecord v closeRecord ++ rest) = [closeEmit] := by
  simp only [fileReadLoop]
  rw [parseSizeHeader_serialize]
  simp [closeRecord, closeEmit, normalizeTime_close]

/-- Serialization distributes over cons. -/
theorem serializeStream_cons (v : Nat) (r : FileRecord) (rs : List FileRecord) :
    serializeStream v (r :: rs) = serializeRecord v r ++ serializeStream v rs := by
  simp [serializeStream]

/-- Each serialized record is three fields long. -/
theorem serializeRecord_length (v : Nat) (r : FileRecord) :
    (serializeRecord v r).length = 3 := by
  unfold serializeRecord
  by_cases hv : v = 3 <;> simp [hv]

/-- Length of a serialized stream. -/
theorem serializeStream_length (v : Nat) (rs : List FileRecord) :
    (serializeStream v rs).length = 3 * rs.length := by
  induction rs with
  | nil => rfl
  | cons r rs ih =>
    rw [serializeStream_cons]
    simp [serializeRecord_length, ih]
    omega

/-- The file_read loop over a serialized record stream followed by a CLOSE
emits every record, normalized, in order then the CLOSE, for any
sufficient fuel. -/
theorem fileReadLoop_stream (v : Nat) (rs : List FileRecord)
    (hnc : ∀ r ∈ rs, r.type ≠ MsgType.close) :
    ∀ fuel, rs.length + 1 ≤ fuel →
      fileReadLoop v fuel (serializeStream v (rs ++ [closeRecord])) =
        rs.map (fun r => (r.type, normalizeTime v r.type r.payload)) ++ [closeEmit] := by
  induction rs with
  | nil =>
    intro fuel hfuel
    obtain ⟨f, rfl⟩ : ∃ f, fuel = f + 1 := ⟨fuel - 1, by omega⟩
    rw [List.nil_append, serializeStream_cons]
    rw [fileReadLoop_closeRecord]
    simp
  | cons r rs ih =>
    intro fuel hfuel
    obtain ⟨f, rfl⟩ : ∃ f, fuel = f + 1 := ⟨fuel - 1, by omega⟩
    rw [List.cons_append, serializeStream_cons,
      fileReadLoop_cons v f r _ (hnc r (by simp))]
    rw [ih (fun x hx => hnc x (by simp [hx])) f (by simp at hfuel; omega)]
    simp

/-- For the supported versions and shape-consistent messages the source
fix-up agrees with the claim wording. -/
theorem normalizeTime_eq_specNormalize (v : Nat)
    (hv : v = 3 ∨ v = 4 ∨ v = 5) (t : MsgType) (p : Payload)
    (hwf : wfShape t p = true) :
    normalizeTime v t p = specNormalize v t p := by
  rcases hv with rfl | rfl | rfl
  · cases t <;> cases p <;>
      simp_all [normalizeTime, specNormalize, scaleTime1000, wfShape]
  · cases t <;> cases p <;>
      simp_all [normalizeTime, specNormalize, scaleTime1000, wfShape]
  · simp [normalizeTime, specNormalize]

/-- C4: reading a stream of version 0x03 or 0x04 multiplies the time field
of every VIDEO_FRAME and AUDIO_DATA message by 1000 in 64-bit arithmetic
and leaves version 0x05 unchanged (the specNormalize form); version 0x03 is
parsed with the message header stored before the size field and later
versions with the size field first (the serializeRecord field orders); and
file_test_stream_version accepts exactly the versions 0x03, 0x04 and
0x05. -/
theorem file_read_version_handling (v : Nat) (hv : v = 3 ∨ v = 4 ∨ v = 5)
    (rs : List FileRecord) (hnc : ∀ r ∈ rs, r.type ≠ MsgType.close)
    (hwf : ∀ r ∈ rs, wfShape r.type r.payload = true) :
    fileRead v (serializeStream v (rs ++ [closeRecord])) =
      rs.map (fun r => (r.type, specNormalize v r.type r.payload)) ++ [closeEmit] ∧
    (∀ w, fileTestStreamVersion w = 0 ↔ (w = 3 ∨ w = 4 ∨ w = 5)) := by
  constructor
  · unfold fileRead
    rw [fileReadLoop_stream v rs hnc _
      (by rw [serializeStream_length]; simp only [List.length_append,
        List.length_singleton]; omega)]
    congr 1
    apply List.map_congr_left
    intro r hr
    rw [normalizeTime_eq_specNormalize v hv r.type r.payload (hwf r hr)]
  · intro w
    unfold fileTestStreamVersion streamVersionCurrent ENOTSUP
    by_cases h5 : w = 5
    · simp [h5]
    · by_cases h34 : w = 3 ∨ w = 4
      · simp [h5, h34]
      · simp [h5, h34]

/-- Witness for C4 at a concrete input: a version 0x03 stream with one
VIDEO_FRAME whose time 7 is rescaled to 7000. -/
theorem file_read_version_handling_witness :
    fileRead 3 (serializeStream 3
      ([⟨10, MsgType.videoFrame, Payload.videoFrame 1 7 [9]⟩] ++ [closeRecord])) =
      [(⟨10, MsgType.videoFrame, Payload.videoFrame 1 7 [9]⟩ : FileRecord)].map
        (fun r => (r.type, specNormalize 3 r.type r.payload)) ++ [closeEmit] :=
  (file_read_version_handling 3 (Or.inl rfl)
    [⟨10, MsgType.videoFrame, Payload.videoFrame 1 7 [9]⟩]
    (by decide) (by decide)).1

/-- Sending never changes the stream id of a sub-stream node. -/
theorem streamSend_id (v : DStream) (m : MsgType × Nat) :
    (streamSend v m).id = v.id := by
  unfold streamSend
  split_ifs <;> rfl

/-- Routing a message through a per-kind list never removes a node: every
stream id present before is present after. -/
theorem demuxStreamMessage_keeps (streams : List DStream) (m : MsgType × Nat)
    (b : Bool) (id : Nat) (v : DStream) (hv : v ∈ streams) :
    ∃ v2 ∈ demuxStreamMessage streams m b id, v2.id = v.id := by
  cases b with
  | true =>
    simp only [demuxStreamMessage, if_true]
    refine ⟨_, List.mem_map_of_mem _ hv, ?_⟩
    by_cases hr : v.running <;> simp [hr, streamSend_id]
  | false =>
    by_cases hany : streams.any (fun w => w.id = id)
    · simp only [demuxStreamMessage, Bool.false_eq_true, if_false, hany, if_true]
      refine ⟨_, List.mem_map_of_mem _ hv, ?_⟩
      by_cases hid : v.id = id <;> simp [hid, streamSend_id]
    · refine ⟨v, ?_, rfl⟩
      simp only [demuxStreamMessage, Bool.false_eq_true, if_false, hany]
      exact List.mem_cons_of_mem _ hv

/-- C8 counterexample: stream 1 is created, its consumer exits, the next
routed frame triggers the cleanup (joined, destroyed, running cleared), yet
the node is left in the per-kind list and one more frame of the same id is
routed to it, touching the destroyed buffer; this refutes the removal and
the no-later-routing parts of the claim at this input. -/
theorem demux_dead_stream_claim_counterexample :
    (demuxRun [DemuxEvent.msg MsgType.videoFormat 1, DemuxEvent.vquit 1,
       DemuxEvent.msg MsgType.videoFrame 1, DemuxEvent.msg MsgType.videoFrame 1]
       demuxInit).video =
      [⟨1, false, true, true, true, [(MsgType.videoFormat, 1)], 1⟩] ∧
    ¬ (([(⟨1, false, true, true, true, [(MsgType.videoFormat, 1)], 1⟩ : DStream)]).all
        (fun v => decide (v.id ≠ 1)) = true) ∧
    ¬ (([(⟨1, false, true, true, true, [(MsgType.videoFormat, 1)], 1⟩ : DStream)]).all
        (fun v => decide (v.ubSends = 0)) = true) := by
  decide

/-- C8 as amended: a sub-stream whose consumer has exited is cleaned up at
the routing attempt whose send returns the interrupted code (its consumer
joined, its buffer destroyed, its running flag cleared), but the node is
left in the per-kind linked list; no routing step removes a node, and CLOSE
broadcasts skip the cleaned node because its running flag is clear. -/
theorem demux_dead_stream_cleanup :
    (∀ (v : DStream) m, v.quit = true → v.destroyed = false →
      streamSend v m =
        { v with running := false, joined := true, destroyed := true }) ∧
    (∀ (s : DemuxState) t id (v : DStream), v ∈ s.video →
      ∃ v2 ∈ (demuxHandleMsg s t id).video, v2.id = v.id) ∧
    (∀ (streams : List DStream) m id (v : DStream), v ∈ streams →
      v.running = false → v ∈ demuxStreamMessage streams m true id) := by
  refine ⟨?_, ?_, ?_⟩
  · intro v m hq hd
    unfold streamSend
    rw [if_neg (by rw [hd]; simp), if_pos hq]
  · intro s t id v hv
    unfold demuxHandleMsg
    by_cases hc1 : t = MsgType.close ∨ t = MsgType.videoFrame ∨ t = MsgType.videoFormat
    · simp only [if_pos hc1]
      by_cases hc2 : t = MsgType.close ∨ t = MsgType.audioFormat ∨ t = MsgType.audioData
      · simp only [if_pos hc2]
        exact demuxStreamMessage_keeps s.video (t, id) _ id v hv
      · simp only [if_neg hc2]
        exact demuxStreamMessage_keeps s.video (t, id) _ id v hv
    · simp only [if_neg hc1]
      by_cases hc2 : t = MsgType.close ∨ t = MsgType.audioFormat ∨ t = MsgType.audioData
      · simp only [if_pos hc2]
        exact ⟨v, hv, rfl⟩
      · simp only [if_neg hc2]
        exact ⟨v, hv, rfl⟩
  · intro streams m id v hv hr
    have hfix : (fun w => if w.running then streamSend w m else w) v = v := by
      simp [hr]
    simp only [demuxStreamMessage, if_true]
    exact hfix ▸ List.mem_map_of_mem _ hv

/-- In a pair list whose first components are distinct, the first component
determines the second. -/
theorem nodup_fst_unique {α : Type} {l : List (Nat × α)}
    (h : (l.map Prod.fst).Nodup)
    {i : Nat} {p q : α} (hp : (i, p) ∈ l) (hq : (i, q) ∈ l) : p = q := by
  induction l with
  | nil => cases hp
  | cons a t ih =>
    rw [List.map_cons, List.nodup_cons] at h
    rcases List.mem_cons.mp hp with hp1 | hp2 <;>
      rcases List.mem_cons.mp hq with hq1 | hq2
    · have h2 := hp1.trans hq1.symm
      exact congrArg Prod.snd h2
    · exfalso
      cases hp1
      have hmm : i ∈ t.map Prod.fst := List.mem_map.mpr ⟨(i, q), hq2, rfl⟩
      exact h.1 hmm
    · exfalso
      cases hq1
      have hmm : i ∈ t.map Prod.fst := List.mem_map.mpr ⟨(i, p), hp2, rfl⟩
      exact h.1 hmm
    · exact ih h.2 hp2 hq2

/-- The worker group invariant holds initially. -/
theorem wginv_init {α β : Type} (f : α → β) (xs : List α) :
    WGInv f xs ⟨xs, [], []⟩ := by
  refine ⟨by simp, by simp, ?_, ?_, by simp⟩
  · intro j hj
    simp at hj
  · intro i p hm
    exact absurd hm (List.not_mem_nil _)

/-- Every worker step preserves the worker group invariant. -/
theorem wginv_step {α β : Type} [DecidableEq α] {f : α → β} {N : Nat}
    {xs : List α} {s s2 : WGState α β}
    (hstep : WGStep f N s s2) (hinv : WGInv f xs s) : WGInv f xs s2 := by
  cases hstep with
  | claim p rest s hin hN =>
    have hdrop : xs.drop s.slots.length = p :: rest := by
      rw [← hinv.hinput]
      exact hin
    have hk : s.slots.length < xs.length := by
      by_contra hle
      push_neg at hle
      rw [List.drop_eq_nil_iff.mpr hle] at hdrop
      cases hdrop
    have hxk : xs[s.slots.length]? = some p := by
      have h0 : (xs.drop s.slots.length)[0]? = some p := by rw [hdrop]; simp
      rw [List.getElem?_drop] at h0
      simpa using h0
    have hrest : rest = xs.drop (s.slots.length + 1) := by
      have h1 := congrArg List.tail hdrop
      rw [List.tail_drop] at h1
      exact h1.symm
    refine ⟨?_, ?_, ?_, ?_, ?_⟩
    · show rest = xs.drop (s.slots ++ [none]).length
      rw [List.length_append, List.length_singleton]
      exact hrest
    · show (s.slots ++ [none]).length ≤ xs.length
      rw [List.length_append, List.length_singleton]
      omega
    · intro j hj
      rw [List.length_append, List.length_singleton] at hj
      by_cases hjk : j < s.slots.length
      · rw [List.getElem?_append, if_pos hjk]
        rcases hinv.hslot j hjk with hL | ⟨hn, q, hxq, hm⟩
        · left
          exact hL
        · right
          exact ⟨hn, q, hxq, List.mem_append_left _ hm⟩
      · have hjeq : j = s.slots.length := by omega
        subst hjeq
        right
        refine ⟨List.getElem?_concat_length s.slots none, p, hxk, ?_⟩
        exact List.mem_append_right _ (List.mem_singleton_self _)
    · intro i q hm
      rcases List.mem_append.mp hm with hm1 | hm2
      · obtain ⟨hi, hxq, hsq⟩ := hinv.hpend i q hm1
        refine ⟨?_, hxq, ?_⟩
        · rw [List.length_append, List.length_singleton]
          omega
        · rw [List.getElem?_append, if_pos hi]
          exact hsq
      · have heq : (i, q) = (s.slots.length, p) := List.mem_singleton.mp hm2
        injection heq with h1 h2
        subst h1
        subst h2
        refine ⟨?_, hxk, List.getElem?_concat_length _ _⟩
        rw [List.length_append, List.length_singleton]
        omega
    · rw [List.map_append, List.nodup_append]
      refine ⟨hinv.hnd, List.nodup_singleton _, ?_⟩
      intro a ha hb
      obtain ⟨⟨i, q⟩, hmq, rfl⟩ := List.mem_map.mp ha
      have hlt := (hinv.hpend i q hmq).1
      simp at hb
      omega
  | publish i p s hmem =>
    obtain ⟨hi, hxp, hsl⟩ := hinv.hpend i p hmem
    have hndl : s.pending.Nodup := List.Nodup.of_map Prod.fst hinv.hnd
    refine ⟨?_, ?_, ?_, ?_, ?_⟩
    · show s.input = xs.drop (s.slots.set i (some (f p))).length
      rw [List.length_set]
      exact hinv.hinput
    · rw [List.length_set]
      exact hinv.hlen
    · intro j hj
      rw [List.length_set] at hj
      by_cases hji : j = i
      · subst hji
        left
        rw [List.getElem?_set_self hj, hxp]
        rfl
      · rw [List.getElem?_set_ne (Ne.symm hji)]
        rcases hinv.hslot j hj with hL | ⟨hn, q, hxq, hm⟩
        · left
          exact hL
        · right
          refine ⟨hn, q, hxq, ?_⟩
          have hne : (j, q) ≠ (i, p) := fun hh => hji (congrArg Prod.fst hh)
          exact (List.mem_erase_of_ne hne).mpr hm
    · intro j q hm
      have hm0 : (j, q) ∈ s.pending := List.mem_of_mem_erase hm
      obtain ⟨hj, hxq, hsq⟩ := hinv.hpend j q hm0
      by_cases hji : j = i
      · subst hji
        have hqp : q = p := nodup_fst_unique hinv.hnd hm0 hmem
        subst hqp
        exfalso
        rw [List.Nodup.mem_erase_iff hndl] at hm
        exact hm.1 rfl
      · refine ⟨by rw [List.length_set]; exact hj, hxq, ?_⟩
        rw [List.getElem?_set_ne (Ne.symm hji)]
        exact hsq
    · exact List.Nodup.sublist ((List.erase_sublist _ _).map Prod.fst) hinv.hnd

/-- The worker group invariant holds in every reachable state. -/
theorem wginv_reaches {α β : Type} [DecidableEq α] {f : α → β} {N : Nat}
    {xs : List α} {s0 s : WGState α β}
    (h : WGReaches f N s0 s) (h0 : WGInv f xs s0) : WGInv f xs s := by
  induction h with
  | refl => exact h0
  | tail hab hbc ih => exact wginv_step hbc ih

/-- C1: whatever the worker count N and the input packet sequence, when
the group has drained its input and every worker has closed its slot, the
output buffer holds the filter image of the input sequence in input order;
the open-lock claim step dequeues and reserves atomically, publications
interleave arbitrarily.  For a pass-through filter (f the identity) the
published sequence equals the dequeued sequence. -/
theorem worker_group_preserves_order {α β : Type} [DecidableEq α]
    (f : α → β) (N : Nat) (xs : List α) (s : WGState α β)
    (h : WGReaches f N ⟨xs, [], []⟩ s)
    (hin : s.input = []) (hpend : s.pending = []) :
    s.slots = xs.map (fun p => some (f p)) := by
  have hinv := wginv_reaches h (wginv_init f xs)
  have hlen : s.slots.length = xs.length := by
    have h1 := hinv.hinput
    rw [hin] at h1
    have h2 : xs.length ≤ s.slots.length := List.drop_eq_nil_iff.mp h1.symm
    exact le_antisymm hinv.hlen h2
  apply List.ext_getElem?
  intro j
  by_cases hj : j < s.slots.length
  · rcases hinv.hslot j hj with hL | ⟨_, q, _, hm⟩
    · obtain ⟨q, hq⟩ : ∃ q, xs[j]? = some q :=
        ⟨_, List.getElem?_eq_getElem (by rw [← hlen]; exact hj)⟩
      rw [hL, List.getElem?_map, hq]
      rfl
    · rw [hpend] at hm
      exact absurd hm (List.not_mem_nil _)
  · push_neg at hj
    rw [List.getElem?_eq_none hj,
      List.getElem?_eq_none (by rw [List.length_map, ← hlen]; exact hj)]

/-- Witness for C1 at a concrete input: two packets, two workers, the
second publication happening before the first; the output slots still hold
the input sequence. -/
theorem worker_group_preserves_order_witness :
    (WGState.mk [] [some 10, some 20] ([] : List (Nat × Nat))).slots =
      List.map (fun p => some (id p)) [10, 20] := by
  refine worker_group_preserves_order id 2 [10, 20] _ ?_ rfl rfl
  have t1 : WGStep (id : Nat → Nat) 2 ⟨[10, 20], [], []⟩ ⟨[20], [none], [(0, 10)]⟩ :=
    WGStep.claim 10 [20] ⟨[10, 20], [], []⟩ rfl (by decide)
  have t2 : WGStep (id : Nat → Nat) 2 ⟨[20], [none], [(0, 10)]⟩
      ⟨[], [none, none], [(0, 10), (1, 20)]⟩ :=
    WGStep.claim 20 [] ⟨[20], [none], [(0, 10)]⟩ rfl (by decide)
  have t3 : WGStep (id : Nat → Nat) 2 ⟨[], [none, none], [(0, 10), (1, 20)]⟩
      ⟨[], [none, some 20], [(0, 10)]⟩ :=
    WGStep.publish 1 20 ⟨[], [none, none], [(0, 10), (1, 20)]⟩ (by decide)
  have t4 : WGStep (id : Nat → Nat) 2 ⟨[], [none, some 20], [(0, 10)]⟩
      ⟨[], [some 10, some 20], []⟩ :=
    WGStep.publish 0 10 ⟨[], [none, some 20], [(0, 10)]⟩ (by decide)
  exact Relation.ReflTransGen.head t1 (Relation.ReflTransGen.head t2
    (Relation.ReflTransGen.head t3 (Relation.ReflTransGen.single t4)))

end Glcs
